import Mathlib

/-!
Verification of the streaming conversation context engine of
`cc-context-viewer` (server `ContextStore`, client height calculator,
worker `SearchIndex`, virtual window controller, chat route).

Strings are embedded as `List Char`; JS numbers that are used as integer
counts, pixel sizes or timestamps are embedded as `Nat` (with explicit
ceiling divisions where the code calls `Math.ceil`).  Each definition is a
direct transcription of the cited TypeScript, file and line references in
the doc comments.
-/

namespace CCViewer

/-! ### Shared data model (`src/unnamed/part_000`, shared types) -/

/-- TS `ContentType` enum (part_000 lines 9-18). -/
inductive ContentType where
  | system
  | tool_definition
  | user
  | thinking
  | text
  | tool_use
  | tool_result
  | error
deriving DecidableEq, Repr

/-- TS `BlockMetadata` (part_000 lines 37-45): every field optional.
`none` models an absent field. -/
structure BlockMetadata where
  model : Option (List Char) := none
  toolName : Option (List Char) := none
  toolId : Option (List Char) := none
  inputTokens : Option Nat := none
  outputTokens : Option Nat := none
  stopReason : Option (List Char) := none
  messageId : Option (List Char) := none
deriving DecidableEq, Repr

/-- JS object spread `{ ...old, ...patch }` on `BlockMetadata`: a field of
the patch that is present overrides, an absent one keeps the old value. -/
def BlockMetadata.merge (old patch : BlockMetadata) : BlockMetadata where
  model := patch.model.orElse fun _ => old.model
  toolName := patch.toolName.orElse fun _ => old.toolName
  toolId := patch.toolId.orElse fun _ => old.toolId
  inputTokens := patch.inputTokens.orElse fun _ => old.inputTokens
  outputTokens := patch.outputTokens.orElse fun _ => old.outputTokens
  stopReason := patch.stopReason.orElse fun _ => old.stopReason
  messageId := patch.messageId.orElse fun _ => old.messageId

/-! ### Height estimators -/

/-- Number of occurrences of a character in a string
(`(content.match(/\n/g) || []).length` for `'\n'`). -/
def countChar (c : Char) (s : List Char) : Nat :=
  (s.filter (fun x => x = c)).length

/-- JS `String.prototype.split(sep)` for a single-character separator:
splitting an empty string gives `[""]`, and every occurrence of the
separator starts a new segment. -/
def splitOnChar (sep : Char) : List Char → List (List Char)
  | [] => [[]]
  | c :: rest =>
    let r := splitOnChar sep rest
    if c = sep then [] :: r
    else
      match r with
      | [] => [[c]]
      | h :: t => (c :: h) :: t

/-- TS `ContextStore.estimateHeight` (src/server/src/services/context-store.ts
lines 182-191):

    const lineCount = content.split('\n').length;
    const avgCharsPerLine = 80;
    const estimatedLines = Math.max(lineCount, Math.ceil(content.length / avgCharsPerLine));
    return Math.max(60, estimatedLines * 24 + 40);

`Math.ceil(len / 80)` on a natural `len` is `(len + 79) / 80` in `Nat`
division. -/
def estimateHeight (content : List Char) : Nat :=
  let lineCount := (splitOnChar '\n' content).length
  let estimatedLines := max lineCount ((content.length + 79) / 80)
  max 60 (estimatedLines * 24 + 40)

/-- TS `HeightCalculator.estimateHeight` (src/unnamed/part_011 lines 156-181),
the client-side mirror used by the worker:

    LINE_HEIGHT = 1.5 (em), BASE_PADDING = 32, HEADER_HEIGHT = 28, CHARS_PER_LINE = 100
    lineBreaks = (content.match(/\n/g) || []).length
    estimatedWrappedLines = Math.ceil(charCount / 100)
    totalLines = Math.max(lineBreaks + 1, estimatedWrappedLines)
    return Math.ceil(totalLines * (fontSize * 1.5) + 32 + 28)

For an integral `fontSize`, `totalLines * fontSize * 1.5` is the rational
`(totalLines * fontSize * 3) / 2`, so the `Math.ceil` of the whole sum is
`(totalLines * fontSize * 3 + 1) / 2 + 32 + 28` in `Nat` arithmetic. -/
def hcEstimateHeight (content : List Char) (fontSize : Nat) : Nat :=
  let lineBreaks := countChar '\n' content
  let estimatedWrappedLines := (content.length + 99) / 100
  let totalLines := max (lineBreaks + 1) estimatedWrappedLines
  (totalLines * fontSize * 3 + 1) / 2 + 32 + 28


/-! ### Search index (`src/unnamed/part_011`, worker `SearchIndex`)

`SearchIndex.search` (lines 100-127) reads only `blockContents` — the map
from block id to retained original text — never the token postings, so the
retained-content map is the whole state that search depends on.  The map is
embedded as an association list in JS `Map` insertion order. -/

/-- JS `String.prototype.toLowerCase`, per character. -/
def toLowerStr (s : List Char) : List Char := s.map Char.toLower

/-- The query occurs in the content at position `i`
(exact substring equality; both already normalized). -/
def matchesAt (nc q : List Char) (i : Nat) : Bool :=
  decide ((nc.drop i).take q.length = q)

/-- Cursor sweep behind JS `content.indexOf(query, searchStart)`: try each
position from `s` upward.  The recursion is on explicit fuel so the
function reduces structurally; `indexOfFrom` below supplies fuel that
provably always suffices (each step moves the cursor up by one, and the
sweep stops at `content.length`). -/
def indexOfFromAux (nc q : List Char) : Nat → Nat → Option Nat
  | 0, _ => none
  | fuel + 1, s =>
    if s < nc.length then
      if matchesAt nc q s then some s else indexOfFromAux nc q fuel (s + 1)
    else none

/-- JS `content.indexOf(query, searchStart)` restricted to start positions
below `content.length` (for a nonempty needle, any occurrence starts below
the length): the first `i ≥ s` at which the query occurs, else `none`. -/
def indexOfFrom (nc q : List Char) (s : Nat) : Option Nat :=
  indexOfFromAux nc q (nc.length + 1) s

/-- The `while (searchStart < normalizedContent.length)` loop of
`SearchIndex.search` (part_011 lines 111-123) on explicit fuel: emit the
match position and resume the scan at `index + 1`. -/
def scanFromAux (nc q : List Char) : Nat → Nat → List Nat
  | 0, _ => []
  | fuel + 1, s =>
    if s < nc.length then
      match indexOfFrom nc q s with
      | none => []
      | some i => i :: scanFromAux nc q fuel (i + 1)
    else []

/-- The scan loop started at cursor `s`.  Each iteration advances the
cursor past the hit (`searchStart = index + 1`, and `indexOf` returns a
position `≥ searchStart`), so `nc.length + 1` iterations always suffice. -/
def scanFrom (nc q : List Char) (s : Nat) : List Nat :=
  scanFromAux nc q (nc.length + 1) s

/-- A search hit (part_011 lines 11-16): block id, start/end offsets, and
the matched text extracted from the original (un-normalized) content. -/
structure SearchMatch where
  blockId : Nat
  startIndex : Nat
  endIndex : Nat
  text : List Char
deriving DecidableEq, Repr

/-- TS `!query.trim()`: a JS string trims to the empty string exactly when all
of its characters are whitespace. -/
def trimEmpty (q : List Char) : Bool := q.all (fun c => c.isWhitespace)

/-- The per-block body of `SearchIndex.search` (part_011 lines 107-124):
scan the lowercased content for the lowercased query; each hit yields a
`SearchMatch` whose `endIndex` is `index + query.length` and whose `text`
is `content.substring(index, index + query.length)` of the original. -/
def searchBlock (blockId : Nat) (content q : List Char) : List SearchMatch :=
  (scanFrom (toLowerStr content) (toLowerStr q) 0).map fun i =>
    { blockId := blockId
      startIndex := i
      endIndex := i + q.length
      text := (content.drop i).take q.length }

/-- The `blockContents` map of the `SearchIndex` (part_011 line 50): block
id to retained original text, in JS `Map` insertion order. -/
abbrev BlockContents := List (Nat × List Char)

/-- TS `SearchIndex.search(query)` (part_011 lines 100-127): empty on an
all-whitespace query, otherwise the per-block matches in map order. -/
def SearchIndex.search (store : BlockContents) (q : List Char) : List SearchMatch :=
  if trimEmpty q then []
  else (store.map fun b => searchBlock b.1 b.2 q).flatten

/-- TS `SearchIndex.removeBlock(blockId)` (part_011 lines 83-95) restricted to
`blockContents`: `this.blockContents.delete(blockId)`. -/
def SearchIndex.removeBlock (store : BlockContents) (blockId : Nat) : BlockContents :=
  store.filter fun b => b.1 ≠ blockId

/-- TS `SearchIndex.indexBlock(blockId, content)` (part_011 lines 55-78)
restricted to `blockContents`: `removeBlock` first, then
`this.blockContents.set(blockId, content)` — after the delete the key is
fresh, so the `Map.set` appends the entry at the end. -/
def SearchIndex.indexBlock (store : BlockContents) (blockId : Nat)
    (content : List Char) : BlockContents :=
  SearchIndex.removeBlock store blockId ++ [(blockId, content)]

/-- TS `SearchIndex.clear()` (part_011 lines 132-135) restricted to
`blockContents`. -/
def SearchIndex.clear (_store : BlockContents) : BlockContents := []

/-- One operation on the worker's search index. -/
inductive IndexOp where
  | indexBlock (blockId : Nat) (content : List Char)
  | removeBlock (blockId : Nat)
  | clear
deriving DecidableEq, Repr

def applyIndexOp (store : BlockContents) : IndexOp → BlockContents
  | .indexBlock blockId content => SearchIndex.indexBlock store blockId content
  | .removeBlock blockId => SearchIndex.removeBlock store blockId
  | .clear => SearchIndex.clear store

/-- The index state after a sequence of operations, starting empty. -/
def runIndexOps (ops : List IndexOp) : BlockContents :=
  ops.foldl applyIndexOp ([] : BlockContents)

/-! ### Server `ContextStore` (`src/server/src/services/context-store.ts`)

The store is mutable JS state.  Block arrays live in an explicit heap
(`World.arrays`) addressed by `Nat` references so that the reference
semantics of `getContext`'s shallow spread `{ ...this.context }` (line 46)
is captured: the copied record holds the same array reference, while its
scalar fields are copied values.  `uuidv4()` is modelled by the fresh
counter `nextId` (uuids are unique), and each mutating method takes the
timestamp `t` that `new Date().toISOString()` would produce at the call. -/

/-- TS `ContextBlock` (part_000 lines 23-31), with the fields the server store
sets.  `id` is a modelled uuid. -/
structure ContextBlock where
  id : Nat
  type : ContentType
  content : List Char
  timestamp : Nat
  metadata : Option BlockMetadata
  isStreaming : Bool
  estimatedHeight : Nat
deriving DecidableEq, Repr

/-- TS `ConversationContext` (context-store.ts lines 28-40): `blocks` is a
reference into the heap of block arrays. -/
structure ConversationContext where
  id : Nat
  createdAt : Nat
  updatedAt : Nat
  systemPrompt : Option (List Char)
  blocksRef : Nat
  totalInputTokens : Nat
  totalOutputTokens : Nat
deriving DecidableEq, Repr

/-- The mutable world of the server process: the heap of block arrays, the
fresh-reference and fresh-uuid counters, and the store's current context. -/
structure World where
  arrays : Nat → List ContextBlock
  nextArr : Nat
  nextId : Nat
  ctx : ConversationContext

/-- TS `createEmptyContext()` (lines 28-40) installed as the current context —
used by the constructor and by `clear()` (lines 174-176): a fresh uuid,
fresh timestamps, zero totals, and a brand-new empty block array. -/
def ContextStore.clear (t : Nat) (w : World) : World where
  arrays := fun r => if r = w.nextArr then [] else w.arrays r
  nextArr := w.nextArr + 1
  nextId := w.nextId + 1
  ctx :=
    { id := w.nextId
      createdAt := t
      updatedAt := t
      systemPrompt := none
      blocksRef := w.nextArr
      totalInputTokens := 0
      totalOutputTokens := 0 }

/-- The store right after `new ContextStore()` (line 22) in a fresh
process, with the construction timestamp `t`. -/
def initialWorld (t : Nat) : World :=
  ContextStore.clear t
    { arrays := fun _ => [], nextArr := 0, nextId := 0, ctx :=
        { id := 0, createdAt := 0, updatedAt := 0, systemPrompt := none,
          blocksRef := 0, totalInputTokens := 0, totalOutputTokens := 0 } }

/-- The block sequence a held `ConversationContext` value shows when its
`blocks` field is read in world `w`: dereference the shared array. -/
def readBlocks (w : World) (c : ConversationContext) : List ContextBlock :=
  w.arrays c.blocksRef

/-- The store's own current block array. -/
def currentBlocks (w : World) : List ContextBlock := readBlocks w w.ctx

/-- TS `getContext()` (lines 45-47): `return { ...this.context }` — a shallow
copy: scalar fields are copied, the `blocks` field keeps the same array
reference. -/
def ContextStore.getContext (w : World) : ConversationContext := w.ctx

/-- Push a block onto the store's current (shared) block array. -/
def pushBlock (w : World) (b : ContextBlock) : World :=
  { w with arrays := fun r =>
      if r = w.ctx.blocksRef then w.arrays r ++ [b] else w.arrays r }

/-- TS `addBlock(type, content, metadata)` (lines 88-107): a fully-formed
non-streaming block with the height estimate of its content. -/
def ContextStore.addBlock (t : Nat) (type : ContentType) (content : List Char)
    (metadata : Option BlockMetadata) (w : World) : World :=
  let b : ContextBlock :=
    { id := w.nextId
      type := type
      content := content
      timestamp := t
      metadata := metadata
      isStreaming := false
      estimatedHeight := estimateHeight content }
  let w' := pushBlock { w with nextId := w.nextId + 1 } b
  { w' with ctx := { w'.ctx with updatedAt := t } }

/-- TS `createStreamingBlock(type, metadata)` (lines 112-130): empty content,
`isStreaming: true`, initial height estimate `50`. -/
def ContextStore.createStreamingBlock (t : Nat) (type : ContentType)
    (metadata : Option BlockMetadata) (w : World) : World :=
  let b : ContextBlock :=
    { id := w.nextId
      type := type
      content := []
      timestamp := t
      metadata := metadata
      isStreaming := true
      estimatedHeight := 50 }
  let w' := pushBlock { w with nextId := w.nextId + 1 } b
  { w' with ctx := { w'.ctx with updatedAt := t } }

/-- JS `array.find(b => b.id === blockId)` used by `appendToBlock`,
`finalizeBlock` and `getBlock`. -/
def findBlock (w : World) (blockId : Nat) : Option ContextBlock :=
  (currentBlocks w).find? fun b => b.id = blockId

/-- Mutate the first element satisfying `p` in place (the effect of
mutating the object returned by `Array.prototype.find`). -/
def updateFirst (p : ContextBlock → Bool) (f : ContextBlock → ContextBlock) :
    List ContextBlock → List ContextBlock
  | [] => []
  | b :: rest => if p b then f b :: rest else b :: updateFirst p f rest

/-- The in-place mutation of the found block performed by
`appendToBlock` (lines 139-140): `block.content += delta;
block.estimatedHeight = this.estimateHeight(block.content)`. -/
def appendUpdate (delta : List Char) (b : ContextBlock) : ContextBlock :=
  { b with
    content := b.content ++ delta
    estimatedHeight := estimateHeight (b.content ++ delta) }

/-- The in-place mutation of the found block performed by
`finalizeBlock` (lines 153-156): `block.isStreaming = false;
if (metadata) block.metadata = { ...block.metadata, ...metadata }`. -/
def finalizeUpdate (patch : Option BlockMetadata) (b : ContextBlock) :
    ContextBlock :=
  { b with
    isStreaming := false
    metadata :=
      match patch with
      | none => b.metadata
      | some p => some ((b.metadata.getD {}).merge p) }

/-- TS `appendToBlock(blockId, delta)` (lines 135-144): no-op when the id is
unknown; otherwise the found block's content is extended in place, its
height re-estimated, and `updatedAt` bumped.  There is no check of
`isStreaming`. -/
def ContextStore.appendToBlock (t : Nat) (blockId : Nat) (delta : List Char)
    (w : World) : World :=
  if (currentBlocks w).any (fun b => b.id = blockId) then
    { w with
      arrays := fun r =>
        if r = w.ctx.blocksRef then
          updateFirst (fun b => b.id = blockId) (appendUpdate delta) (w.arrays r)
        else w.arrays r
      ctx := { w.ctx with updatedAt := t } }
  else w

/-- TS `finalizeBlock(blockId, metadata)` (lines 149-160): no-op when the id
is unknown; otherwise `isStreaming` is cleared, the metadata patch is
spread over the old metadata, and `updatedAt` bumped. -/
def ContextStore.finalizeBlock (t : Nat) (blockId : Nat)
    (patch : Option BlockMetadata) (w : World) : World :=
  if (currentBlocks w).any (fun b => b.id = blockId) then
    { w with
      arrays := fun r =>
        if r = w.ctx.blocksRef then
          updateFirst (fun b => b.id = blockId) (finalizeUpdate patch) (w.arrays r)
        else w.arrays r
      ctx := { w.ctx with updatedAt := t } }
  else w

/-- TS `updateTokenUsage(inputTokens, outputTokens)` (lines 165-169): add to
the running totals. -/
def ContextStore.updateTokenUsage (t inputTokens outputTokens : Nat)
    (w : World) : World :=
  { w with ctx :=
      { w.ctx with
        totalInputTokens := w.ctx.totalInputTokens + inputTokens
        totalOutputTokens := w.ctx.totalOutputTokens + outputTokens
        updatedAt := t } }

/-- One call into the store's mutating interface, tagged with the clock
value `t` at the call. -/
inductive StoreOp where
  | addBlock (t : Nat) (type : ContentType) (content : List Char)
      (metadata : Option BlockMetadata)
  | createStreamingBlock (t : Nat) (type : ContentType)
      (metadata : Option BlockMetadata)
  | appendToBlock (t : Nat) (blockId : Nat) (delta : List Char)
  | finalizeBlock (t : Nat) (blockId : Nat) (patch : Option BlockMetadata)
  | updateTokenUsage (t inputTokens outputTokens : Nat)
  | clear (t : Nat)

def applyOp (w : World) : StoreOp → World
  | .addBlock t type content metadata =>
      ContextStore.addBlock t type content metadata w
  | .createStreamingBlock t type metadata =>
      ContextStore.createStreamingBlock t type metadata w
  | .appendToBlock t blockId delta =>
      ContextStore.appendToBlock t blockId delta w
  | .finalizeBlock t blockId patch =>
      ContextStore.finalizeBlock t blockId patch w
  | .updateTokenUsage t i o => ContextStore.updateTokenUsage t i o w
  | .clear t => ContextStore.clear t w

def applyOps (ops : List StoreOp) (w : World) : World := ops.foldl applyOp w

/-- The observable store state: the context record together with the block
array it references.  (The rest of the heap is unreachable garbage.) -/
def observe (w : World) : ConversationContext × List ContextBlock :=
  (w.ctx, currentBlocks w)

/-- Well-formedness of the mutable world, maintained by every operation:
every block id in the current array is below the uuid counter, and the
current array reference is below the allocation counter. -/
def WF (w : World) : Prop :=
  (∀ b ∈ currentBlocks w, b.id < w.nextId) ∧ w.ctx.blocksRef < w.nextArr

instance (w : World) : Decidable (WF w) := by
  unfold WF; infer_instance

/-! ### Chat route (`src/server/src/routes/chat.ts`, POST handler) -/

/-- Outcome of `POST /api/chat` (chat.ts lines 18-98): `badRequest` is the
400 "Message is required" reply, `notConfigured` the 500 reply, and
`streamStarted` means the SSE stream began and
`claudeClient.sendMessage(message, callbacks)` was invoked. -/
inductive ChatResponse where
  | badRequest
  | notConfigured
  | streamStarted
deriving DecidableEq, Repr

/-- The `POST /api/chat` handler (chat.ts lines 18-98) up to the point
where the turn is running.  `message` is `none` when the body carries no
message; `if (!message || typeof message !== 'string')` also rejects the
empty string (falsy).  On the success path, `sendMessage` first appends the
user block (`contextStore.addBlock(ContentType.USER, userMessage)`,
claude-client.ts line 305) — i.e. a new turn starts.  The handler performs
no check of the store's streaming state.  (The optional `systemPrompt`
field of the body, which resets the store, is not modelled — requests here
carry only a message.) -/
def handleChatPost (message : Option (List Char)) (configured : Bool)
    (t : Nat) (w : World) : ChatResponse × World :=
  match message with
  | none => (.badRequest, w)
  | some m =>
    if m = [] then (.badRequest, w)
    else if ¬configured then (.notConfigured, w)
    else (.streamStarted, ContextStore.addBlock t .user m none w)

/-- A block is still streaming in the store — the "turn in flight"
condition of the claim. -/
def hasStreamingBlock (w : World) : Bool :=
  (currentBlocks w).any fun b => b.isStreaming

/-! ### SSE trace of a turn (chat.ts callbacks + claude-client.ts)

`sendMessage` (claude-client.ts lines 303-442) streams one model turn,
fires `onMessageStop`, and when `stop_reason === 'tool_use'` runs
`handleToolUse` (lines 447-488), which emits one `tool_result` per
requested tool and then re-enters `sendMessage('')` for the continuation
turn.  The route's `onMessageStop` (chat.ts lines 64-75) sends the
`message_stop` SSE event and closes the channel only when the stop reason
is not `'tool_use'`.  The model API is scripted as a list of turns; store
mutations are modelled separately above — this trace captures what goes
over the delta channel. -/

/-- One scripted model turn: the content-block events streamed before the
final message, the final `stop_reason` string, and the ids of the
`tool_use` blocks of the final message (empty unless the model requested
tools). -/
structure ModelTurn where
  blockEvents : List (Nat × List Char)
  stopReason : List Char
  toolUses : List Nat
deriving DecidableEq, Repr

/-- Events observable on the SSE channel, in order. -/
inductive SSEvent where
  | connected
  | contentEvent (blockId : Nat) (payload : List Char)
  | messageStop (stopReason : List Char)
  | toolResult (toolId : Nat)
  | close
deriving DecidableEq, Repr

/-- The trace emitted from one `sendMessage` invocation onward: per turn
the content events, then `message_stop`; `onMessageStop` closes the channel
unless the reason is `'tool_use'` (chat.ts line 72), in which case
`handleToolUse` emits the tool results and recurses into the next scripted
turn. -/
def runTurns : List ModelTurn → List SSEvent
  | [] => []
  | turn :: rest =>
    (turn.blockEvents.map fun e => SSEvent.contentEvent e.1 e.2) ++
      [SSEvent.messageStop turn.stopReason] ++
      (if turn.stopReason = "tool_use".data then
        (turn.toolUses.map SSEvent.toolResult) ++ runTurns rest
      else [SSEvent.close])

/-- The whole channel trace of one `POST /api/chat`: the initial
`connected` event (chat.ts line 43), then the turns. -/
def runChat (script : List ModelTurn) : List SSEvent :=
  SSEvent.connected :: runTurns script

/-! ### Virtual window controller (`src/unnamed/part_009` lines 21-33)

    const ITEM_HEIGHT_ESTIMATE = 100;
    const OVERSCAN = 5;
    $: startIndex = Math.max(0, Math.floor(scrollTop / ITEM_HEIGHT_ESTIMATE) - OVERSCAN);
    $: endIndex = Math.min(blocks.length, Math.ceil((scrollTop + viewportHeight) / ITEM_HEIGHT_ESTIMATE) + OVERSCAN);

The computation uses only `blocks.length`, a fixed 100px per-block
estimate, and a fixed overscan of 5 — the individual estimated heights are
never consulted. -/

def ITEM_HEIGHT_ESTIMATE : Nat := 100

def OVERSCAN : Nat := 5

/-- TS `startIndex`: truncated `Nat` subtraction coincides with
`Math.max(0, floor(scrollTop / 100) - 5)`. -/
def vwStartIndex (scrollTop : Nat) : Nat :=
  scrollTop / ITEM_HEIGHT_ESTIMATE - OVERSCAN

/-- TS `endIndex`: `Math.ceil((scrollTop + viewportHeight) / 100)` is
`(scrollTop + viewportHeight + 99) / 100` in `Nat` division. -/
def vwEndIndex (nBlocks scrollTop viewportHeight : Nat) : Nat :=
  min nBlocks
    ((scrollTop + viewportHeight + ITEM_HEIGHT_ESTIMATE - 1) / ITEM_HEIGHT_ESTIMATE
      + OVERSCAN)

/-- Where block `i` starts when the blocks are laid out with the given
per-block heights. -/
def blockStart (heights : List Nat) (i : Nat) : Nat := (heights.take i).sum

/-- Block `i` (of height `heights[i]`, laid out by prefix sums) intersects
the viewport `[scrollTop, scrollTop + viewportHeight)`. -/
def intersectsViewport (heights : List Nat) (scrollTop viewportHeight i : Nat) :
    Prop :=
  blockStart heights i < scrollTop + viewportHeight ∧
    scrollTop < blockStart heights i + heights.getD i 0

instance (heights : List Nat) (s v i : Nat) :
    Decidable (intersectsViewport heights s v i) := by
  unfold intersectsViewport; infer_instance

/-! ## Theorems -/

/-! ### Search-scan lemmas -/

theorem splitOnChar_length (sep : Char) :
    ∀ s : List Char, (splitOnChar sep s).length = countChar sep s + 1 := by
  intro s
  induction s with
  | nil => simp [splitOnChar, countChar]
  | cons c rest ih =>
    simp only [splitOnChar, countChar, List.filter_cons] at *
    by_cases h : c = sep
    · subst h
      simp only [if_pos rfl]
      simp
      omega
    · simp only [if_neg h, decide_eq_true_eq, h, if_false]
      cases hr : splitOnChar sep rest with
      | nil => rw [hr] at ih; simp at ih
      | cons hd tl =>
        rw [hr] at ih
        simp only [List.length_cons] at ih ⊢
        omega

theorem indexOfFromAux_some_spec (nc q : List Char) :
    ∀ fuel s i, indexOfFromAux nc q fuel s = some i →
      s ≤ i ∧ i < nc.length ∧ matchesAt nc q i = true ∧
        ∀ k, s ≤ k → k < i → matchesAt nc q k = false := by
  intro fuel
  induction fuel with
  | zero => intro s i h; simp [indexOfFromAux] at h
  | succ fuel ih =>
    intro s i h
    rw [indexOfFromAux] at h
    by_cases hs : s < nc.length
    · rw [if_pos hs] at h
      by_cases hm : matchesAt nc q s
      · rw [if_pos hm] at h
        cases h
        exact ⟨le_refl _, hs, hm, fun k hk1 hk2 => absurd (lt_of_le_of_lt hk1 hk2) (lt_irrefl _)⟩
      · rw [if_neg hm] at h
        obtain ⟨h1, h2, h3, h4⟩ := ih (s + 1) i h
        refine ⟨by omega, h2, h3, fun k hk1 hk2 => ?_⟩
        rcases Nat.eq_or_lt_of_le hk1 with heq | hlt
        · rw [← heq]; exact Bool.eq_false_iff.mpr hm
        · exact h4 k hlt hk2
    · rw [if_neg hs] at h; cases h

theorem indexOfFromAux_none_spec (nc q : List Char) :
    ∀ fuel s, nc.length ≤ fuel + s → indexOfFromAux nc q fuel s = none →
      ∀ k, s ≤ k → k < nc.length → matchesAt nc q k = false := by
  intro fuel
  induction fuel with
  | zero => intro s hle _ k hk1 hk2; omega
  | succ fuel ih =>
    intro s hle h k hk1 hk2
    rw [indexOfFromAux] at h
    have hs : s < nc.length := by omega
    rw [if_pos hs] at h
    by_cases hm : matchesAt nc q s
    · rw [if_pos hm] at h; cases h
    · rw [if_neg hm] at h
      rcases Nat.eq_or_lt_of_le hk1 with heq | hlt
      · rw [← heq]; exact Bool.eq_false_iff.mpr hm
      · exact ih (s + 1) (by omega) h k hlt hk2

theorem indexOfFrom_some_spec (nc q : List Char) (s i : Nat)
    (h : indexOfFrom nc q s = some i) :
    s ≤ i ∧ i < nc.length ∧ matchesAt nc q i = true ∧
      ∀ k, s ≤ k → k < i → matchesAt nc q k = false :=
  indexOfFromAux_some_spec nc q _ s i h

theorem indexOfFrom_none_spec (nc q : List Char) (s : Nat)
    (h : indexOfFrom nc q s = none) :
    ∀ k, s ≤ k → k < nc.length → matchesAt nc q k = false :=
  indexOfFromAux_none_spec nc q _ s (by omega) h

theorem mem_scanFromAux (nc q : List Char) :
    ∀ fuel s j, j ∈ scanFromAux nc q fuel s →
      s ≤ j ∧ matchesAt nc q j = true := by
  intro fuel
  induction fuel with
  | zero => intro s j h; simp [scanFromAux] at h
  | succ fuel ih =>
    intro s j h
    rw [scanFromAux] at h
    by_cases hs : s < nc.length
    · rw [if_pos hs] at h
      cases hio : indexOfFrom nc q s with
      | none => rw [hio] at h; simp at h
      | some i =>
        rw [hio] at h
        obtain ⟨hi1, _, hi3, _⟩ := indexOfFrom_some_spec nc q s i hio
        rcases List.mem_cons.mp h with heq | hmem
        · subst heq; exact ⟨hi1, hi3⟩
        · obtain ⟨hj1, hj2⟩ := ih (i + 1) j hmem
          exact ⟨by omega, hj2⟩
    · rw [if_neg hs] at h; simp at h

theorem mem_scanFromAux_of (nc q : List Char) :
    ∀ fuel s j, nc.length ≤ fuel + s → s ≤ j → j < nc.length →
      matchesAt nc q j = true → j ∈ scanFromAux nc q fuel s := by
  intro fuel
  induction fuel with
  | zero => intro s j hle hj1 hj2 _; omega
  | succ fuel ih =>
    intro s j hle hj1 hj2 hm
    rw [scanFromAux]
    have hs : s < nc.length := by omega
    rw [if_pos hs]
    cases hio : indexOfFrom nc q s with
    | none =>
      exact absurd hm (by simpa using indexOfFrom_none_spec nc q s hio j hj1 hj2)
    | some i =>
      obtain ⟨hi1, hi2, _, hi4⟩ := indexOfFrom_some_spec nc q s i hio
      have hij : i ≤ j := by
        by_contra hc
        exact absurd hm (by simpa using hi4 j hj1 (by omega))
      rcases Nat.eq_or_lt_of_le hij with heq | hlt
      · subst heq; exact List.mem_cons_self _ _
      · exact List.mem_cons_of_mem _ (ih (i + 1) j (by omega) (by omega) hj2 hm)

/-- Membership in the scan loop's output: exactly the positions at or after
the starting cursor where the query occurs — i.e. the cursor advancing by
one character after each hit reports every (also overlapping) occurrence. -/
theorem mem_scanFrom_iff (nc q : List Char) (s j : Nat) (hq : q ≠ []) :
    j ∈ scanFrom nc q s ↔ s ≤ j ∧ matchesAt nc q j = true := by
  constructor
  · exact mem_scanFromAux nc q _ s j
  · rintro ⟨hj1, hj2⟩
    have hq1 : 1 ≤ q.length := by
      cases q with
      | nil => exact absurd rfl hq
      | cons _ _ => simp
    have hmin := congrArg List.length (of_decide_eq_true hj2)
    rw [List.length_take, List.length_drop] at hmin
    exact mem_scanFromAux_of nc q _ s j (by omega) hj1 (by omega) hj2

theorem toLowerStr_length (s : List Char) : (toLowerStr s).length = s.length := by
  simp [toLowerStr]

theorem toLowerStr_ne_nil (s : List Char) (h : s ≠ []) : toLowerStr s ≠ [] := by
  cases s with
  | nil => exact absurd rfl h
  | cons c rest => simp [toLowerStr]

theorem trimEmpty_false_ne_nil (q : List Char) (h : trimEmpty q = false) : q ≠ [] := by
  intro hq; subst hq; simp [trimEmpty] at h

/-- Characterization of the per-block search results. -/
theorem mem_searchBlock_iff (blockId : Nat) (content q : List Char)
    (m : SearchMatch) (hq : q ≠ []) :
    m ∈ searchBlock blockId content q ↔
      ∃ i, matchesAt (toLowerStr content) (toLowerStr q) i = true ∧
        m = ⟨blockId, i, i + q.length, (content.drop i).take q.length⟩ := by
  unfold searchBlock
  rw [List.mem_map]
  constructor
  · rintro ⟨i, hi, rfl⟩
    obtain ⟨-, hm⟩ :=
      (mem_scanFrom_iff _ _ 0 i (toLowerStr_ne_nil q hq)).mp hi
    exact ⟨i, hm, rfl⟩
  · rintro ⟨i, hm, rfl⟩
    exact ⟨i, (mem_scanFrom_iff _ _ 0 i (toLowerStr_ne_nil q hq)).mpr
      ⟨Nat.zero_le i, hm⟩, rfl⟩

/-- C7: `search("aa")` over an index whose only block has retained content
`"aabaa"` returns exactly the two matches `[0,2)` and `[3,5)`; and in
general the scan (which resumes one character after each hit) reports a
match starting at every position where the query occurs, so adjacent and
overlapping occurrences are all reported. -/
theorem C7_search_overlap :
    (SearchIndex.search [(1, "aabaa".data)] "aa".data =
      [{ blockId := 1, startIndex := 0, endIndex := 2, text := "aa".data },
       { blockId := 1, startIndex := 3, endIndex := 5, text := "aa".data }]) ∧
    ∀ (blockId : Nat) (content q : List Char) (i : Nat),
      trimEmpty q = false →
      matchesAt (toLowerStr content) (toLowerStr q) i = true →
      ∃ m ∈ SearchIndex.search [(blockId, content)] q,
        m.startIndex = i ∧ m.endIndex = i + q.length := by
  constructor
  · decide
  · intro blockId content q i htrim hm
    have hq : q ≠ [] := trimEmpty_false_ne_nil q htrim
    refine ⟨⟨blockId, i, i + q.length, (content.drop i).take q.length⟩, ?_, rfl, rfl⟩
    unfold SearchIndex.search
    rw [if_neg (by simp [htrim])]
    simp only [List.map_cons, List.map_nil, List.flatten_cons, List.flatten_nil,
      List.append_nil]
    exact (mem_searchBlock_iff blockId content q _ hq).mpr ⟨i, hm, rfl⟩

theorem C7_search_overlap_witness :
    ∃ m ∈ SearchIndex.search [(1, "aabaa".data)] "aa".data,
      m.startIndex = 3 ∧ m.endIndex = 3 + "aa".data.length :=
  C7_search_overlap.2 1 "aabaa".data "aa".data 3 (by decide) (by decide)

/-- C10: after any sequence of index operations, every match returned by
`search` names a block id whose content is retained in the index, has
`endIndex = startIndex + query.length` within the bounds of that retained
content, and its `text` is exactly the retained original content's
substring from `startIndex` to `endIndex`. -/
theorem C10_search_match_wellformed :
    ∀ (ops : List IndexOp) (q : List Char) (m : SearchMatch),
      m ∈ SearchIndex.search (runIndexOps ops) q →
      ∃ content, (m.blockId, content) ∈ runIndexOps ops ∧
        m.endIndex = m.startIndex + q.length ∧
        m.endIndex ≤ content.length ∧
        m.text = (content.drop m.startIndex).take (m.endIndex - m.startIndex) := by
  intro ops q m hm
  unfold SearchIndex.search at hm
  by_cases htrim : trimEmpty q
  · rw [if_pos htrim] at hm; simp at hm
  · rw [if_neg htrim] at hm
    have hq : q ≠ [] := trimEmpty_false_ne_nil q (by simpa using htrim)
    obtain ⟨l, hl, hml⟩ := List.mem_flatten.mp hm
    obtain ⟨⟨bid, content⟩, hbc, rfl⟩ := List.mem_map.mp hl
    obtain ⟨i, hmi, rfl⟩ := (mem_searchBlock_iff bid content q m hq).mp hml
    have hq1 : 1 ≤ q.length := by
      cases q with
      | nil => exact absurd rfl hq
      | cons _ _ => simp
    have hmin := congrArg List.length (of_decide_eq_true hmi)
    rw [List.length_take, List.length_drop, toLowerStr_length,
      toLowerStr_length] at hmin
    refine ⟨content, hbc, rfl, ?_, ?_⟩
    · show i + q.length ≤ content.length
      omega
    · show (content.drop i).take q.length =
        (content.drop i).take (i + q.length - i)
      congr 1
      omega

theorem C10_search_match_wellformed_witness :
    ∃ content,
      ((⟨1, 0, 2, "aa".data⟩ : SearchMatch).blockId, content) ∈
        runIndexOps [.indexBlock 1 "aabaa".data] ∧
      (⟨1, 0, 2, "aa".data⟩ : SearchMatch).endIndex =
        (⟨1, 0, 2, "aa".data⟩ : SearchMatch).startIndex + "aa".data.length ∧
      (⟨1, 0, 2, "aa".data⟩ : SearchMatch).endIndex ≤ content.length ∧
      (⟨1, 0, 2, "aa".data⟩ : SearchMatch).text =
        (content.drop (⟨1, 0, 2, "aa".data⟩ : SearchMatch).startIndex).take
          ((⟨1, 0, 2, "aa".data⟩ : SearchMatch).endIndex -
            (⟨1, 0, 2, "aa".data⟩ : SearchMatch).startIndex) :=
  C10_search_match_wellformed [.indexBlock 1 "aabaa".data] "aa".data
    ⟨1, 0, 2, "aa".data⟩ (by decide)

/-! ### C1: height heuristics -/

/-- C1 counterexample: the server store and the client-side height
calculator do not compute identical estimates.  For the content `"abc"`
the server's `estimateHeight` yields `max(60, 1*24+40) = 64`, while the
client worker's `HeightCalculator.estimateHeight` at the viewer's default
`fontSize = 14` (part_009 line 7) yields `ceil(1 * 21 + 60) = 81`. -/
theorem C1_counterexample :
    estimateHeight "abc".data = 64 ∧
    hcEstimateHeight "abc".data 14 = 81 ∧
    hcEstimateHeight "abc".data 14 ≠ estimateHeight "abc".data := by
  decide

/-- C1 amended: each side computes
`max(floor, lines * lineHeight + padding)` resp.
`ceil(lines * lineHeight) + padding` with
`lines = max(lineCount, ceil(charCount / cols))` where `lineCount` is the
newline count plus one — but with different constants (server:
cols 80, 24px lines, padding 40, floor 60; client: cols 100,
`fontSize * 1.5`px lines, padding 60, no floor), so the two sides disagree:
on `"abc"` no integral `fontSize` makes the client equal the server's 64. -/
theorem C1_height_formulas :
    (∀ content : List Char, estimateHeight content =
      max 60
        (max (countChar '\n' content + 1) ((content.length + 79) / 80) * 24 + 40)) ∧
    (∀ (content : List Char) (fontSize : Nat), hcEstimateHeight content fontSize =
      (max (countChar '\n' content + 1) ((content.length + 99) / 100)
        * fontSize * 3 + 1) / 2 + 60) ∧
    (∀ fontSize : Nat, hcEstimateHeight "abc".data fontSize ≠ estimateHeight "abc".data) := by
  refine ⟨?_, ?_, ?_⟩
  · intro content
    unfold estimateHeight
    rw [splitOnChar_length]
  · intro content fontSize
    show (max (countChar '\n' content + 1) ((content.length + 99) / 100)
      * fontSize * 3 + 1) / 2 + 32 + 28 = _
    omega
  · intro fontSize
    have h1 : estimateHeight "abc".data = 64 := by decide
    have h2 : max (countChar '\n' "abc".data + 1) (("abc".data.length + 99) / 100) = 1 := by
      decide
    rw [h1]
    show (max (countChar '\n' "abc".data + 1) (("abc".data.length + 99) / 100)
      * fontSize * 3 + 1) / 2 + 32 + 28 ≠ 64
    rw [h2]
    omega

/-! ### C4: virtual window controller -/

/-- C4 counterexample: the visible range does not cover every block that
intersects the viewport for arbitrary per-block heights, because the
controller never consults them.  With 30 blocks of actual height 10px,
viewport 250, scroll 0, block 10 (occupying `[100,110)`) intersects the
viewport, but the computed range is `[0, 8)`. -/
theorem C4_counterexample :
    intersectsViewport (List.replicate 30 10) 0 250 10 ∧
    vwEndIndex 30 0 250 = 8 ∧
    ¬(vwStartIndex 0 ≤ 10 ∧ 10 < vwEndIndex 30 0 250) := by
  refine ⟨?_, by decide, by decide⟩
  decide

/-- C4 amended: the controller uses a fixed 100px per-block estimate and a
fixed overscan of 5, ignoring the per-block heights; under the uniform
assumption that every block is exactly 100px tall the returned range covers
every block that intersects the viewport — in particular, with five 100px
blocks, viewport 250, scroll 0, the range covers at least indices 0–3. -/
theorem C4_range_coverage :
    (∀ (n scrollTop viewportHeight i : Nat), i < n →
      intersectsViewport (List.replicate n 100) scrollTop viewportHeight i →
      vwStartIndex scrollTop ≤ i ∧ i < vwEndIndex n scrollTop viewportHeight) ∧
    (vwStartIndex 0 ≤ 0 ∧ 3 < vwEndIndex 5 0 250) := by
  constructor
  · intro n scrollTop viewportHeight i hin hiv
    obtain ⟨h1, h2⟩ := hiv
    rw [blockStart, List.take_replicate, List.sum_replicate, smul_eq_mul] at h1 h2
    have hget : (List.replicate n 100).getD i 0 = 100 := by
      rw [List.getD_eq_getElem?_getD, List.getElem?_replicate, if_pos hin]
      rfl
    rw [hget] at h2
    have hmin : min i n = i := by omega
    rw [hmin] at h1 h2
    unfold vwStartIndex vwEndIndex ITEM_HEIGHT_ESTIMATE OVERSCAN
    omega
  · decide

theorem C4_range_coverage_witness :
    vwStartIndex 0 ≤ 2 ∧ 2 < vwEndIndex 5 0 250 :=
  C4_range_coverage.1 5 0 250 2 (by decide) (by decide)

/-! ### C3: one terminal completion across a tool-use continuation -/

theorem close_not_mem_contentEvents (l : List (Nat × List Char)) :
    SSEvent.close ∉ l.map fun e => SSEvent.contentEvent e.1 e.2 := by
  intro h
  obtain ⟨e, -, he⟩ := List.mem_map.mp h
  cases he

theorem close_not_mem_toolResults (l : List Nat) :
    SSEvent.close ∉ l.map SSEvent.toolResult := by
  intro h
  obtain ⟨e, -, he⟩ := List.mem_map.mp h
  cases he

/-- C3: for an exchange whose first model turn stops with `"tool_use"` and
whose continuation turn stops with `"end_turn"`, the SSE channel trace
contains exactly one `close` (the terminal completion signal), and it is
emitted immediately after the second turn's `message_stop`; the prefix
before that — which contains the first turn's `message_stop` — has no
`close`. -/
theorem C3_single_terminal_close :
    ∀ t1 t2 : ModelTurn, t1.stopReason = "tool_use".data →
      t2.stopReason = "end_turn".data →
      (runChat [t1, t2]).count SSEvent.close = 1 ∧
      ∃ pre, runChat [t1, t2] =
          pre ++ [SSEvent.messageStop t2.stopReason, SSEvent.close] ∧
        SSEvent.messageStop t1.stopReason ∈ pre ∧
        SSEvent.close ∉ pre := by
  intro t1 t2 h1 h2
  have hne : t2.stopReason = "tool_use".data → False := by
    rw [h2]; decide
  have htrace : runChat [t1, t2] =
      (SSEvent.connected ::
        ((t1.blockEvents.map fun e => SSEvent.contentEvent e.1 e.2) ++
          [SSEvent.messageStop t1.stopReason] ++
          (t1.toolUses.map SSEvent.toolResult) ++
          (t2.blockEvents.map fun e => SSEvent.contentEvent e.1 e.2))) ++
        [SSEvent.messageStop t2.stopReason, SSEvent.close] := by
    simp only [runChat, runTurns]
    rw [if_pos h1, if_neg hne]
    simp
  refine ⟨?_, _, htrace, ?_, ?_⟩
  · rw [htrace]
    rw [List.count_append]
    have hc0 : (SSEvent.connected ::
        ((t1.blockEvents.map fun e => SSEvent.contentEvent e.1 e.2) ++
          [SSEvent.messageStop t1.stopReason] ++
          (t1.toolUses.map SSEvent.toolResult) ++
          (t2.blockEvents.map fun e => SSEvent.contentEvent e.1 e.2))).count
        SSEvent.close = 0 := by
      rw [List.count_eq_zero]
      intro hmem
      rcases List.mem_cons.mp hmem with h | h
      · cases h
      · rcases List.mem_append.mp h with h | h
        · rcases List.mem_append.mp h with h | h
          · rcases List.mem_append.mp h with h | h
            · exact close_not_mem_contentEvents _ h
            · rcases List.mem_singleton.mp h with h; cases h
          · exact close_not_mem_toolResults _ h
        · exact close_not_mem_contentEvents _ h
    rw [hc0]
    simp [List.count_cons]
  · exact List.mem_cons_of_mem _ (List.mem_append_left _
      (List.mem_append_left _ (List.mem_append_right _ (List.mem_singleton.mpr rfl))))
  · intro hmem
    rcases List.mem_cons.mp hmem with h | h
    · cases h
    · rcases List.mem_append.mp h with h | h
      · rcases List.mem_append.mp h with h | h
        · rcases List.mem_append.mp h with h | h
          · exact close_not_mem_contentEvents _ h
          · rcases List.mem_singleton.mp h with h; cases h
        · exact close_not_mem_toolResults _ h
      · exact close_not_mem_contentEvents _ h

theorem C3_single_terminal_close_witness :
    (runChat [⟨[(1, "plan".data)], "tool_use".data, [7]⟩,
      ⟨[(2, "done".data)], "end_turn".data, []⟩]).count SSEvent.close = 1 :=
  (C3_single_terminal_close ⟨[(1, "plan".data)], "tool_use".data, [7]⟩
    ⟨[(2, "done".data)], "end_turn".data, []⟩ rfl rfl).1

/-! ### C2: send during an in-flight turn -/

/-- C2 counterexample: with a block still streaming in the store, a POST of
a valid user message does not fail — there is no in-flight check and no
StateError anywhere in the code — it starts a second concurrent turn,
appending the new user block. -/
theorem C2_counterexample :
    hasStreamingBlock
      (ContextStore.createStreamingBlock 1 .text none (initialWorld 0)) = true ∧
    (handleChatPost (some "hi".data) true 2
      (ContextStore.createStreamingBlock 1 .text none (initialWorld 0))).1 =
      ChatResponse.streamStarted ∧
    (currentBlocks (handleChatPost (some "hi".data) true 2
      (ContextStore.createStreamingBlock 1 .text none (initialWorld 0))).2).length =
      (currentBlocks
        (ContextStore.createStreamingBlock 1 .text none (initialWorld 0))).length
        + 1 := by
  refine ⟨by decide, by decide, by decide⟩

/-- C2 amended: the POST handler performs no in-flight check.  For every
store state — streaming or not — a nonempty message on a configured client
starts a turn, appending the user block to the store; the only rejected
sends are a missing/empty message (400) and an unconfigured client (500).
A StateError is not implemented. -/
theorem C2_no_inflight_guard :
    ∀ (w : World) (m : List Char) (t : Nat), m ≠ [] →
      ((handleChatPost (some m) true t w).1 = ChatResponse.streamStarted ∧
        currentBlocks (handleChatPost (some m) true t w).2 =
          currentBlocks w ++
            [{ id := w.nextId, type := .user, content := m, timestamp := t,
               metadata := none, isStreaming := false,
               estimatedHeight := estimateHeight m }]) ∧
      handleChatPost none true t w = (.badRequest, w) ∧
      handleChatPost (some []) true t w = (.badRequest, w) ∧
      handleChatPost (some m) false t w = (.notConfigured, w) := by
  intro w m t hm
  refine ⟨⟨?_, ?_⟩, rfl, rfl, ?_⟩
  · simp [handleChatPost, hm]
  · simp only [handleChatPost, if_neg hm]
    simp [ContextStore.addBlock, pushBlock, currentBlocks, readBlocks]
  · simp [handleChatPost, hm]

theorem C2_no_inflight_guard_witness :
    (handleChatPost (some "hi".data) true 2
      (ContextStore.createStreamingBlock 1 .text none (initialWorld 0))).1 =
      ChatResponse.streamStarted :=
  (C2_no_inflight_guard
    (ContextStore.createStreamingBlock 1 .text none (initialWorld 0))
    "hi".data 2 (by decide)).1.1

/-! ### C9: token usage totals -/

/-- C9: from a fresh context, `updateTokenUsage(3,5)` then
`updateTokenUsage(2,1)` leaves totals input = 5 and output = 6; and over
any sequence of `updateTokenUsage` calls, from any state, the running
totals read back never decrease. -/
theorem C9_token_totals :
    ((ContextStore.updateTokenUsage 2 2 1
        (ContextStore.updateTokenUsage 1 3 5 (initialWorld 0))).ctx.totalInputTokens = 5 ∧
      (ContextStore.updateTokenUsage 2 2 1
        (ContextStore.updateTokenUsage 1 3 5 (initialWorld 0))).ctx.totalOutputTokens = 6) ∧
    ∀ (calls : List (Nat × Nat × Nat)) (w : World),
      w.ctx.totalInputTokens ≤
        (applyOps (calls.map fun c => .updateTokenUsage c.1 c.2.1 c.2.2) w).ctx.totalInputTokens ∧
      w.ctx.totalOutputTokens ≤
        (applyOps (calls.map fun c => .updateTokenUsage c.1 c.2.1 c.2.2) w).ctx.totalOutputTokens := by
  refine ⟨⟨by decide, by decide⟩, ?_⟩
  intro calls
  induction calls with
  | nil => intro w; exact ⟨le_refl _, le_refl _⟩
  | cons c rest ih =>
    intro w
    obtain ⟨h1, h2⟩ := ih (ContextStore.updateTokenUsage c.1 c.2.1 c.2.2 w)
    refine ⟨le_trans ?_ h1, le_trans ?_ h2⟩
    · exact Nat.le_add_right _ _
    · exact Nat.le_add_right _ _

/-! ### C6: snapshot (im)mutability -/

/-- C6 counterexample: `getContext()` is the shallow spread
`{ ...this.context }`, so a previously returned snapshot shares the live
block array.  Take a snapshot while one streaming block holds `""`; a
subsequent `appendToBlock` is visible through the snapshot, whose block
sequence now shows content `"x"`. -/
theorem C6_counterexample :
    (readBlocks (ContextStore.createStreamingBlock 1 .text none (initialWorld 0))
        (ContextStore.getContext
          (ContextStore.createStreamingBlock 1 .text none (initialWorld 0)))).map
        ContextBlock.content = [[]] ∧
    (readBlocks
        (ContextStore.appendToBlock 2 1 "x".data
          (ContextStore.createStreamingBlock 1 .text none (initialWorld 0)))
        (ContextStore.getContext
          (ContextStore.createStreamingBlock 1 .text none (initialWorld 0)))).map
        ContextBlock.content = ["x".data] := by
  refine ⟨by decide, by decide⟩

/-- C6 amended: `getContext()` returns a shallow copy.  Its scalar fields
are copied values, and `clear()` and `updateTokenUsage` leave a prior
snapshot's block view and copied totals untouched; but the block array is
shared by reference, so after `addBlock`, `appendToBlock` or
`finalizeBlock` the prior snapshot's block view equals the mutated live
block sequence — it is not an immutable copy. -/
theorem C6_snapshot_shallow_copy :
    ∀ w : World, WF w →
      (∀ t, readBlocks (ContextStore.clear t w) (ContextStore.getContext w) =
        readBlocks w (ContextStore.getContext w)) ∧
      (∀ t i o,
        readBlocks (ContextStore.updateTokenUsage t i o w) (ContextStore.getContext w) =
          readBlocks w (ContextStore.getContext w) ∧
        (ContextStore.getContext w).totalInputTokens = w.ctx.totalInputTokens ∧
        (ContextStore.updateTokenUsage t i o w).ctx.totalInputTokens =
          w.ctx.totalInputTokens + i) ∧
      (∀ t ty c md,
        readBlocks (ContextStore.addBlock t ty c md w) (ContextStore.getContext w) =
          currentBlocks (ContextStore.addBlock t ty c md w)) ∧
      (∀ t id d,
        readBlocks (ContextStore.appendToBlock t id d w) (ContextStore.getContext w) =
          currentBlocks (ContextStore.appendToBlock t id d w)) ∧
      (∀ t id p,
        readBlocks (ContextStore.finalizeBlock t id p w) (ContextStore.getContext w) =
          currentBlocks (ContextStore.finalizeBlock t id p w)) := by
  intro w hwf
  obtain ⟨-, href⟩ := hwf
  refine ⟨?_, ?_, ?_, ?_, ?_⟩
  · intro t
    unfold readBlocks ContextStore.clear ContextStore.getContext
    simp only
    rw [if_neg (by omega : ¬w.ctx.blocksRef = w.nextArr)]
  · intro t i o
    exact ⟨rfl, rfl, rfl⟩
  · intro t ty c md
    rfl
  · intro t id d
    unfold ContextStore.appendToBlock
    by_cases h : (currentBlocks w).any fun b => b.id = id
    · rw [if_pos h]; rfl
    · rw [if_neg h]; rfl
  · intro t id p
    unfold ContextStore.finalizeBlock
    by_cases h : (currentBlocks w).any fun b => b.id = id
    · rw [if_pos h]; rfl
    · rw [if_neg h]; rfl

theorem C6_snapshot_shallow_copy_witness :
    readBlocks (ContextStore.clear 5 (initialWorld 0))
        (ContextStore.getContext (initialWorld 0)) =
      readBlocks (initialWorld 0) (ContextStore.getContext (initialWorld 0)) :=
  (C6_snapshot_shallow_copy (initialWorld 0) (by decide)).1 5

/-! ### C8: finalize idempotence -/

theorem Option.orElse_orElse_self {α : Type} (a b : Option α) :
    (a.orElse fun _ => a.orElse fun _ => b) = a.orElse fun _ => b := by
  cases a <;> rfl

/-- Spreading the same patch twice is the same as spreading it once. -/
theorem BlockMetadata.merge_merge (m p : BlockMetadata) :
    (m.merge p).merge p = m.merge p := by
  unfold BlockMetadata.merge
  congr 1 <;> apply Option.orElse_orElse_self

theorem finalizeUpdate_idem (patch : Option BlockMetadata) (b : ContextBlock) :
    finalizeUpdate patch (finalizeUpdate patch b) = finalizeUpdate patch b := by
  unfold finalizeUpdate
  cases patch with
  | none => rfl
  | some p => simp [BlockMetadata.merge_merge]

theorem finalizeUpdate_id (patch : Option BlockMetadata) (b : ContextBlock) :
    (finalizeUpdate patch b).id = b.id := by
  unfold finalizeUpdate; rfl

theorem appendUpdate_id (delta : List Char) (b : ContextBlock) :
    (appendUpdate delta b).id = b.id := by
  unfold appendUpdate; rfl

theorem updateFirst_any (p q : ContextBlock → Bool) (f : ContextBlock → ContextBlock)
    (hq : ∀ b, q (f b) = q b) :
    ∀ l : List ContextBlock, (updateFirst p f l).any q = l.any q := by
  intro l
  induction l with
  | nil => rfl
  | cons b rest ih =>
    unfold updateFirst
    by_cases hb : p b
    · rw [if_pos hb]
      simp [List.any_cons, hq]
    · rw [if_neg hb]
      simp [List.any_cons, ih]

theorem updateFirst_cons (p : ContextBlock → Bool) (f : ContextBlock → ContextBlock)
    (b : ContextBlock) (rest : List ContextBlock) :
    updateFirst p f (b :: rest) =
      if p b then f b :: rest else b :: updateFirst p f rest := rfl

theorem updateFirst_idem (p : ContextBlock → Bool) (f : ContextBlock → ContextBlock)
    (hp : ∀ b, p b = true → p (f b) = true)
    (hf : ∀ b, p b = true → f (f b) = f b) :
    ∀ l : List ContextBlock, updateFirst p f (updateFirst p f l) = updateFirst p f l := by
  intro l
  induction l with
  | nil => rfl
  | cons b rest ih =>
    rw [updateFirst_cons]
    by_cases hb : p b
    · rw [if_pos hb, updateFirst_cons, if_pos (hp b hb), hf b hb]
    · rw [if_neg hb, updateFirst_cons, if_neg hb, ih]

theorem finalizeBlock_found (t blockId : Nat) (patch : Option BlockMetadata)
    (w : World) (h : (currentBlocks w).any (fun b => b.id = blockId) = true) :
    (ContextStore.finalizeBlock t blockId patch w).ctx = { w.ctx with updatedAt := t } ∧
    currentBlocks (ContextStore.finalizeBlock t blockId patch w) =
      updateFirst (fun b => b.id = blockId) (finalizeUpdate patch) (currentBlocks w) := by
  unfold ContextStore.finalizeBlock
  rw [if_pos h]
  exact ⟨rfl, by simp [currentBlocks, readBlocks]⟩

/-- C8 counterexample: `finalizeBlock` bumps `updatedAt` to the clock value
of every call, so two calls in succession at distinct timestamps (2 then 3)
leave the store in a different state — `updatedAt = 3` — than a single call
(`updatedAt = 2`).  Only up to the timestamp is the double call identical. -/
theorem C8_counterexample :
    observe (ContextStore.finalizeBlock 3 1 none
        (ContextStore.finalizeBlock 2 1 none
          (ContextStore.createStreamingBlock 1 .text none (initialWorld 0)))) ≠
      observe (ContextStore.finalizeBlock 2 1 none
        (ContextStore.createStreamingBlock 1 .text none (initialWorld 0))) := by
  decide

/-- C8 amended: `finalizeBlock(id, patch)` called twice in succession
leaves the block sequence identical to a single call, and the context
identical except for `updatedAt`, which each call bumps to its own clock
value; when both calls read the same clock value the full observable
states agree. -/
theorem C8_finalize_idempotent :
    ∀ (w : World) (blockId : Nat) (patch : Option BlockMetadata) (t1 t2 : Nat),
      currentBlocks (ContextStore.finalizeBlock t2 blockId patch
          (ContextStore.finalizeBlock t1 blockId patch w)) =
        currentBlocks (ContextStore.finalizeBlock t1 blockId patch w) ∧
      (ContextStore.finalizeBlock t2 blockId patch
          (ContextStore.finalizeBlock t1 blockId patch w)).ctx =
        { (ContextStore.finalizeBlock t1 blockId patch w).ctx with
            updatedAt := (ContextStore.finalizeBlock t2 blockId patch
              (ContextStore.finalizeBlock t1 blockId patch w)).ctx.updatedAt } ∧
      (t2 = t1 → observe (ContextStore.finalizeBlock t2 blockId patch
          (ContextStore.finalizeBlock t1 blockId patch w)) =
        observe (ContextStore.finalizeBlock t1 blockId patch w)) := by
  intro w blockId patch t1 t2
  by_cases h : (currentBlocks w).any (fun b => b.id = blockId) = true
  · obtain ⟨hctx1, hblocks1⟩ := finalizeBlock_found t1 blockId patch w h
    have h1 : (currentBlocks (ContextStore.finalizeBlock t1 blockId patch w)).any
        (fun b => b.id = blockId) = true := by
      rw [hblocks1]
      rw [updateFirst_any _ _ _ (fun b => by rw [finalizeUpdate_id])]
      exact h
    obtain ⟨hctx2, hblocks2⟩ :=
      finalizeBlock_found t2 blockId patch (ContextStore.finalizeBlock t1 blockId patch w) h1
    have hb : currentBlocks (ContextStore.finalizeBlock t2 blockId patch
        (ContextStore.finalizeBlock t1 blockId patch w)) =
        currentBlocks (ContextStore.finalizeBlock t1 blockId patch w) := by
      rw [hblocks2, hblocks1]
      exact updateFirst_idem _ _
        (fun b hpb => by rw [finalizeUpdate_id]; exact hpb)
        (fun b _ => finalizeUpdate_idem patch b) _
    refine ⟨hb, ?_, ?_⟩
    · rw [hctx2, hctx1]
    · intro ht
      subst ht
      unfold observe
      rw [hb, hctx2, hctx1]
  · have hw1 : ContextStore.finalizeBlock t1 blockId patch w = w := by
      unfold ContextStore.finalizeBlock
      rw [if_neg (by simpa using h)]
    rw [hw1]
    have hw2 : ContextStore.finalizeBlock t2 blockId patch w = w := by
      unfold ContextStore.finalizeBlock
      rw [if_neg (by simpa using h)]
    rw [hw2]
    exact ⟨rfl, rfl, fun _ => rfl⟩

theorem C8_finalize_idempotent_witness :
    observe (ContextStore.finalizeBlock 2 1 none
        (ContextStore.finalizeBlock 2 1 none
          (ContextStore.createStreamingBlock 1 .text none (initialWorld 0)))) =
      observe (ContextStore.finalizeBlock 2 1 none
        (ContextStore.createStreamingBlock 1 .text none (initialWorld 0))) :=
  (C8_finalize_idempotent
    (ContextStore.createStreamingBlock 1 .text none (initialWorld 0))
    1 none 2 2).2.2 rfl

/-! ### C5: streaming flag and content evolution -/

theorem mem_updateFirst (p : ContextBlock → Bool) (f : ContextBlock → ContextBlock) :
    ∀ (l : List ContextBlock) (b' : ContextBlock),
      b' ∈ updateFirst p f l → b' ∈ l ∨ ∃ b ∈ l, b' = f b := by
  intro l
  induction l with
  | nil => intro b' h; simp [updateFirst] at h
  | cons b rest ih =>
    intro b' h
    rw [updateFirst_cons] at h
    by_cases hb : p b
    · rw [if_pos hb] at h
      rcases List.mem_cons.mp h with heq | hmem
      · exact Or.inr ⟨b, List.mem_cons_self _ _, heq⟩
      · exact Or.inl (List.mem_cons_of_mem _ hmem)
    · rw [if_neg hb] at h
      rcases List.mem_cons.mp h with heq | hmem
      · exact Or.inl (by rw [heq]; exact List.mem_cons_self _ _)
      · rcases ih b' hmem with h1 | ⟨b0, hb0, rfl⟩
        · exact Or.inl (List.mem_cons_of_mem _ h1)
        · exact Or.inr ⟨b0, List.mem_cons_of_mem _ hb0, rfl⟩

theorem find?_updateFirst_eq (f : ContextBlock → ContextBlock)
    (hid : ∀ b, (f b).id = b.id) (blockId : Nat) :
    ∀ l : List ContextBlock,
      (updateFirst (fun b => b.id = blockId) f l).find? (fun b => b.id = blockId) =
        (l.find? (fun b => b.id = blockId)).map f := by
  intro l
  induction l with
  | nil => rfl
  | cons b rest ih =>
    rw [updateFirst_cons]
    by_cases hb : b.id = blockId
    · rw [if_pos (by simpa using hb)]
      rw [List.find?_cons_of_pos _ (by simpa [hid] using hb),
        List.find?_cons_of_pos _ (by simpa using hb)]
      rfl
    · rw [if_neg (by simpa using hb)]
      rw [List.find?_cons_of_neg _ (by simpa using hb),
        List.find?_cons_of_neg _ (by simpa using hb), ih]

theorem find?_updateFirst_ne (f : ContextBlock → ContextBlock)
    (hid : ∀ b, (f b).id = b.id) (tid blockId : Nat) (hne : tid ≠ blockId) :
    ∀ l : List ContextBlock,
      (updateFirst (fun b => b.id = tid) f l).find? (fun b => b.id = blockId) =
        l.find? (fun b => b.id = blockId) := by
  intro l
  induction l with
  | nil => rfl
  | cons b rest ih =>
    rw [updateFirst_cons]
    by_cases hb : b.id = tid
    · rw [if_pos (by simpa using hb)]
      have hbne : ¬b.id = blockId := by rw [hb]; exact hne
      rw [List.find?_cons_of_neg _ (by simpa [hid, hb] using hne),
        List.find?_cons_of_neg _ (by simpa using hbne)]
    · rw [if_neg (by simpa using hb)]
      by_cases hbid : b.id = blockId
      · rw [List.find?_cons_of_pos _ (by simpa using hbid),
          List.find?_cons_of_pos _ (by simpa using hbid)]
      · rw [List.find?_cons_of_neg _ (by simpa using hbid),
          List.find?_cons_of_neg _ (by simpa using hbid), ih]

theorem currentBlocks_addBlock (t : Nat) (ty : ContentType) (c : List Char)
    (md : Option BlockMetadata) (w : World) :
    currentBlocks (ContextStore.addBlock t ty c md w) =
      currentBlocks w ++
        [{ id := w.nextId, type := ty, content := c, timestamp := t,
           metadata := md, isStreaming := false,
           estimatedHeight := estimateHeight c }] := by
  simp [ContextStore.addBlock, pushBlock, currentBlocks, readBlocks]

theorem currentBlocks_createStreamingBlock (t : Nat) (ty : ContentType)
    (md : Option BlockMetadata) (w : World) :
    currentBlocks (ContextStore.createStreamingBlock t ty md w) =
      currentBlocks w ++
        [{ id := w.nextId, type := ty, content := [], timestamp := t,
           metadata := md, isStreaming := true, estimatedHeight := 50 }] := by
  simp [ContextStore.createStreamingBlock, pushBlock, currentBlocks, readBlocks]

theorem appendToBlock_found (t blockId : Nat) (d : List Char) (w : World)
    (h : (currentBlocks w).any (fun b => b.id = blockId) = true) :
    currentBlocks (ContextStore.appendToBlock t blockId d w) =
      updateFirst (fun b => b.id = blockId) (appendUpdate d) (currentBlocks w) := by
  unfold ContextStore.appendToBlock
  rw [if_pos h]
  simp [currentBlocks, readBlocks]

theorem appendToBlock_not_found (t blockId : Nat) (d : List Char) (w : World)
    (h : ¬(currentBlocks w).any (fun b => b.id = blockId) = true) :
    ContextStore.appendToBlock t blockId d w = w := by
  unfold ContextStore.appendToBlock
  rw [if_neg h]

theorem finalizeBlock_not_found (t blockId : Nat) (patch : Option BlockMetadata)
    (w : World) (h : ¬(currentBlocks w).any (fun b => b.id = blockId) = true) :
    ContextStore.finalizeBlock t blockId patch w = w := by
  unfold ContextStore.finalizeBlock
  rw [if_neg h]

theorem currentBlocks_clear (t : Nat) (w : World) :
    currentBlocks (ContextStore.clear t w) = [] := by
  simp [ContextStore.clear, currentBlocks, readBlocks]

theorem appendToBlock_scalars (t blockId : Nat) (d : List Char) (w : World) :
    (ContextStore.appendToBlock t blockId d w).nextId = w.nextId ∧
    (ContextStore.appendToBlock t blockId d w).nextArr = w.nextArr ∧
    (ContextStore.appendToBlock t blockId d w).ctx.blocksRef = w.ctx.blocksRef := by
  unfold ContextStore.appendToBlock
  split <;> exact ⟨rfl, rfl, rfl⟩

theorem finalizeBlock_scalars (t blockId : Nat) (patch : Option BlockMetadata)
    (w : World) :
    (ContextStore.finalizeBlock t blockId patch w).nextId = w.nextId ∧
    (ContextStore.finalizeBlock t blockId patch w).nextArr = w.nextArr ∧
    (ContextStore.finalizeBlock t blockId patch w).ctx.blocksRef = w.ctx.blocksRef := by
  unfold ContextStore.finalizeBlock
  split <;> exact ⟨rfl, rfl, rfl⟩

theorem applyOp_nextId_mono (w : World) (op : StoreOp) :
    w.nextId ≤ (applyOp w op).nextId := by
  cases op with
  | addBlock t ty c md => exact Nat.le_succ _
  | createStreamingBlock t ty md => exact Nat.le_succ _
  | appendToBlock t blockId d =>
    show w.nextId ≤ (ContextStore.appendToBlock t blockId d w).nextId
    unfold ContextStore.appendToBlock
    split <;> exact le_refl _
  | finalizeBlock t blockId patch =>
    show w.nextId ≤ (ContextStore.finalizeBlock t blockId patch w).nextId
    unfold ContextStore.finalizeBlock
    split <;> exact le_refl _
  | updateTokenUsage t i o => exact le_refl _
  | clear t => exact Nat.le_succ _

theorem applyOp_WF (w : World) (op : StoreOp) (hwf : WF w) : WF (applyOp w op) := by
  obtain ⟨hids, href⟩ := hwf
  cases op with
  | addBlock t ty c md =>
    refine ⟨?_, href⟩
    intro b hb
    rw [show applyOp w (.addBlock t ty c md) = ContextStore.addBlock t ty c md w from rfl,
      currentBlocks_addBlock] at hb
    rcases List.mem_append.mp hb with h1 | h1
    · exact lt_trans (hids b h1) (Nat.lt_succ_self _)
    · rw [List.mem_singleton.mp h1]
      exact Nat.lt_succ_self _
  | createStreamingBlock t ty md =>
    refine ⟨?_, href⟩
    intro b hb
    rw [show applyOp w (.createStreamingBlock t ty md) =
        ContextStore.createStreamingBlock t ty md w from rfl,
      currentBlocks_createStreamingBlock] at hb
    rcases List.mem_append.mp hb with h1 | h1
    · exact lt_trans (hids b h1) (Nat.lt_succ_self _)
    · rw [List.mem_singleton.mp h1]
      exact Nat.lt_succ_self _
  | appendToBlock t blockId d =>
    show WF (ContextStore.appendToBlock t blockId d w)
    obtain ⟨hn, ha, hr⟩ := appendToBlock_scalars t blockId d w
    by_cases h : (currentBlocks w).any (fun b => b.id = blockId) = true
    · refine ⟨?_, by rw [ha, hr]; exact href⟩
      intro b hb
      rw [hn]
      rw [appendToBlock_found t blockId d w h] at hb
      rcases mem_updateFirst _ _ _ b hb with h1 | ⟨b0, hb0, rfl⟩
      · exact hids b h1
      · rw [appendUpdate_id]
        exact hids b0 hb0
    · rw [appendToBlock_not_found t blockId d w h]
      exact ⟨hids, href⟩
  | finalizeBlock t blockId patch =>
    show WF (ContextStore.finalizeBlock t blockId patch w)
    obtain ⟨hn, ha, hr⟩ := finalizeBlock_scalars t blockId patch w
    by_cases h : (currentBlocks w).any (fun b => b.id = blockId) = true
    · refine ⟨?_, by rw [ha, hr]; exact href⟩
      intro b hb
      rw [hn]
      rw [(finalizeBlock_found t blockId patch w h).2] at hb
      rcases mem_updateFirst _ _ _ b hb with h1 | ⟨b0, hb0, rfl⟩
      · exact hids b h1
      · rw [finalizeUpdate_id]
        exact hids b0 hb0
    · rw [finalizeBlock_not_found t blockId patch w h]
      exact ⟨hids, href⟩
  | updateTokenUsage t i o => exact ⟨hids, href⟩
  | clear t =>
    refine ⟨?_, Nat.lt_succ_self _⟩
    intro b hb
    rw [show applyOp w (.clear t) = ContextStore.clear t w from rfl,
      currentBlocks_clear] at hb
    cases hb

theorem find?_push_ne (l : List ContextBlock) (nb : ContextBlock) (blockId : Nat)
    (h : nb.id ≠ blockId) :
    (l ++ [nb]).find? (fun b => b.id = blockId) =
      l.find? (fun b => b.id = blockId) := by
  rw [List.find?_append, List.find?_cons_of_neg _ (by simpa using h)]
  cases l.find? (fun b => decide (b.id = blockId)) <;> rfl

theorem applyOp_find_step (w : World) (op : StoreOp) (blockId : Nat)
    (_hwf : WF w) (hid : blockId < w.nextId) :
    (findBlock w blockId = none → findBlock (applyOp w op) blockId = none) ∧
    (∀ b, findBlock w blockId = some b →
      findBlock (applyOp w op) blockId = none ∨
      ∃ b', findBlock (applyOp w op) blockId = some b' ∧
        b.content <+: b'.content ∧
        (b.isStreaming = false → b'.isStreaming = false)) := by
  cases op with
  | addBlock t ty c md =>
    have hfb : findBlock (applyOp w (.addBlock t ty c md)) blockId =
        findBlock w blockId := by
      show (currentBlocks (ContextStore.addBlock t ty c md w)).find? _ = _
      rw [currentBlocks_addBlock]
      exact find?_push_ne _ _ _ (by simp; omega)
    rw [hfb]
    exact ⟨fun h => h, fun b hb => Or.inr ⟨b, hb, List.prefix_rfl, fun h => h⟩⟩
  | createStreamingBlock t ty md =>
    have hfb : findBlock (applyOp w (.createStreamingBlock t ty md)) blockId =
        findBlock w blockId := by
      show (currentBlocks (ContextStore.createStreamingBlock t ty md w)).find? _ = _
      rw [currentBlocks_createStreamingBlock]
      exact find?_push_ne _ _ _ (by simp; omega)
    rw [hfb]
    exact ⟨fun h => h, fun b hb => Or.inr ⟨b, hb, List.prefix_rfl, fun h => h⟩⟩
  | appendToBlock t tid d =>
    by_cases hany : (currentBlocks w).any (fun b => b.id = tid) = true
    · have hcb := appendToBlock_found t tid d w hany
      have hfb : findBlock (applyOp w (.appendToBlock t tid d)) blockId =
          (updateFirst (fun b => b.id = tid) (appendUpdate d)
            (currentBlocks w)).find? (fun b => b.id = blockId) := by
        show (currentBlocks (ContextStore.appendToBlock t tid d w)).find? _ = _
        rw [hcb]
      by_cases htid : tid = blockId
      · subst htid
        rw [hfb, find?_updateFirst_eq _ (appendUpdate_id d)]
        constructor
        · intro h
          rw [show findBlock w tid = (currentBlocks w).find?
            (fun b => b.id = tid) from rfl] at h
          rw [h]
          rfl
        · intro b hb
          rw [show findBlock w tid = (currentBlocks w).find?
            (fun b => b.id = tid) from rfl] at hb
          rw [hb]
          exact Or.inr ⟨appendUpdate d b, rfl, List.prefix_append _ _, fun h => h⟩
      · rw [hfb, find?_updateFirst_ne _ (appendUpdate_id d) _ _ htid]
        exact ⟨fun h => h, fun b hb => Or.inr ⟨b, hb, List.prefix_rfl, fun h => h⟩⟩
    · rw [show applyOp w (.appendToBlock t tid d) =
        ContextStore.appendToBlock t tid d w from rfl,
        appendToBlock_not_found t tid d w hany]
      exact ⟨fun h => h, fun b hb => Or.inr ⟨b, hb, List.prefix_rfl, fun h => h⟩⟩
  | finalizeBlock t tid patch =>
    by_cases hany : (currentBlocks w).any (fun b => b.id = tid) = true
    · have hcb := (finalizeBlock_found t tid patch w hany).2
      have hfb : findBlock (applyOp w (.finalizeBlock t tid patch)) blockId =
          (updateFirst (fun b => b.id = tid) (finalizeUpdate patch)
            (currentBlocks w)).find? (fun b => b.id = blockId) := by
        show (currentBlocks (ContextStore.finalizeBlock t tid patch w)).find? _ = _
        rw [hcb]
      by_cases htid : tid = blockId
      · subst htid
        rw [hfb, find?_updateFirst_eq _ (finalizeUpdate_id patch)]
        constructor
        · intro h
          rw [show findBlock w tid = (currentBlocks w).find?
            (fun b => b.id = tid) from rfl] at h
          rw [h]
          rfl
        · intro b hb
          rw [show findBlock w tid = (currentBlocks w).find?
            (fun b => b.id = tid) from rfl] at hb
          rw [hb]
          exact Or.inr ⟨finalizeUpdate patch b, rfl, List.prefix_rfl, fun _ => rfl⟩
      · rw [hfb, find?_updateFirst_ne _ (finalizeUpdate_id patch) _ _ htid]
        exact ⟨fun h => h, fun b hb => Or.inr ⟨b, hb, List.prefix_rfl, fun h => h⟩⟩
    · rw [show applyOp w (.finalizeBlock t tid patch) =
        ContextStore.finalizeBlock t tid patch w from rfl,
        finalizeBlock_not_found t tid patch w hany]
      exact ⟨fun h => h, fun b hb => Or.inr ⟨b, hb, List.prefix_rfl, fun h => h⟩⟩
  | updateTokenUsage t i o =>
    exact ⟨fun h => h, fun b hb => Or.inr ⟨b, hb, List.prefix_rfl, fun h => h⟩⟩
  | clear t =>
    have h : findBlock (applyOp w (.clear t)) blockId = none := by
      show (currentBlocks (ContextStore.clear t w)).find? _ = _
      rw [currentBlocks_clear]
      rfl
    exact ⟨fun _ => h, fun b _ => Or.inl h⟩

theorem applyOps_evolution (blockId : Nat) :
    ∀ (ops : List StoreOp) (w : World), WF w → blockId < w.nextId →
      (findBlock w blockId = none → findBlock (applyOps ops w) blockId = none) ∧
      (∀ b, findBlock w blockId = some b →
        findBlock (applyOps ops w) blockId = none ∨
        ∃ b', findBlock (applyOps ops w) blockId = some b' ∧
          b.content <+: b'.content ∧
          (b.isStreaming = false → b'.isStreaming = false)) := by
  intro ops
  induction ops with
  | nil =>
    intro w _ _
    exact ⟨fun h => h, fun b hb => Or.inr ⟨b, hb, List.prefix_rfl, fun h => h⟩⟩
  | cons op rest ih =>
    intro w hwf hid
    have hwf1 := applyOp_WF w op hwf
    have hid1 : blockId < (applyOp w op).nextId :=
      lt_of_lt_of_le hid (applyOp_nextId_mono w op)
    obtain ⟨ihnone, ihsome⟩ := ih (applyOp w op) hwf1 hid1
    obtain ⟨snone, ssome⟩ := applyOp_find_step w op blockId hwf hid
    refine ⟨fun h => ihnone (snone h), ?_⟩
    intro b hb
    rcases ssome b hb with h1 | ⟨b1, hb1, hpre1, hstr1⟩
    · exact Or.inl (ihnone h1)
    · rcases ihsome b1 hb1 with h2 | ⟨b', hb', hpre2, hstr2⟩
      · exact Or.inl h2
      · exact Or.inr ⟨b', hb', hpre1.trans hpre2, fun h => hstr2 (hstr1 h)⟩

/-- C5 counterexample: a block's content does change after finalize.
Create a streaming block, finalize it (`isStreaming = false`, content
`""`), then call `appendToBlock`: the content becomes `"x"` while the block
is no longer streaming — `appendToBlock` never checks the streaming
flag, so content does not grow only while streaming. -/
theorem C5_counterexample :
    (findBlock (ContextStore.finalizeBlock 2 1 none
        (ContextStore.createStreamingBlock 1 .text none (initialWorld 0))) 1).map
        (fun b => (b.isStreaming, b.content)) = some (false, []) ∧
    (findBlock (ContextStore.appendToBlock 3 1 "x".data
        (ContextStore.finalizeBlock 2 1 none
          (ContextStore.createStreamingBlock 1 .text none (initialWorld 0)))) 1).map
        (fun b => (b.isStreaming, b.content)) = some (false, "x".data) := by
  exact ⟨by decide, by decide⟩

/-- C5 amended: over every sequence of store operations from a well-formed
state, once a block's `isStreaming` flag is false it never reverts to true
for as long as the block exists, and a block's content only ever grows
(every later content has the earlier one as a prefix) — at all times, not
only while streaming: `appendToBlock` extends content regardless of the
streaming flag, so content is not immutable after finalize. -/
theorem C5_streaming_flag_and_content :
    ∀ (w : World) (ops : List StoreOp) (blockId : Nat) (b : ContextBlock),
      WF w → findBlock w blockId = some b →
      ∀ b', findBlock (applyOps ops w) blockId = some b' →
        (b.isStreaming = false → b'.isStreaming = false) ∧
        b.content <+: b'.content := by
  intro w ops blockId b hwf hfb b' hfb'
  have hid : blockId < w.nextId := by
    have hmem := List.mem_of_find?_eq_some hfb
    have hp : b.id = blockId := by simpa using List.find?_some hfb
    rw [← hp]
    exact hwf.1 b hmem
  rcases (applyOps_evolution blockId ops w hwf hid).2 b hfb with h1 | ⟨b'', hb'', hpre, hstr⟩
  · rw [h1] at hfb'; cases hfb'
  · rw [hb''] at hfb'
    cases hfb'
    exact ⟨hstr, hpre⟩

theorem C5_streaming_flag_and_content_witness :
    ((⟨1, .text, [], 1, none, true, 50⟩ : ContextBlock).isStreaming = false →
      (⟨1, .text, "x".data, 1, none, false, 64⟩ : ContextBlock).isStreaming = false) ∧
    (⟨1, .text, [], 1, none, true, 50⟩ : ContextBlock).content <+:
      (⟨1, .text, "x".data, 1, none, false, 64⟩ : ContextBlock).content :=
  C5_streaming_flag_and_content
    (ContextStore.createStreamingBlock 1 .text none (initialWorld 0))
    [.finalizeBlock 2 1 none, .appendToBlock 3 1 "x".data] 1
    ⟨1, .text, [], 1, none, true, 50⟩ (by decide) (by decide)
    ⟨1, .text, "x".data, 1, none, false, 64⟩ (by decide)

end CCViewer
